import Mathlib

/-!
Verification development for the ncurses UI backend (src/ncurses_ui.cc):
the stdin byte-stream decoder, the window draw model, the layout engine
and the menu engine, shallowly embedded in Lean.

External collaborators (keys.hh, utf8.hh, display primitives) are not part
of src/; where a definition depends on them it is modelled from the spec
and marked as such in its doc comment.
-/

namespace Kakoune

/-- Modifier set carried by a key. The source stores these as bit flags in
Key::Modifiers (keys.hh, external to src/); the spec describes them as a set
over Shift, Alt, Control, MousePos, MousePress/Release Left/Right and Scroll,
which this record represents with one Bool per element. -/
structure Modifiers where
  shift : Bool := false
  alt : Bool := false
  ctrl : Bool := false
  mousePos : Bool := false
  mousePressLeft : Bool := false
  mousePressRight : Bool := false
  mouseReleaseLeft : Bool := false
  mouseReleaseRight : Bool := false
  scroll : Bool := false
deriving DecidableEq, Repr

/-- The empty modifier set (Key::Modifiers::None). -/
def noMods : Modifiers := {}

/-- Key payload: either a plain codepoint, a named key, a mouse coordinate
(the encode_coord payload of mouse keys, kept abstract as a pair since
encode_coord/decode_coord live in keys.hh outside src/), or the synthetic
Resize payload. -/
inductive KeySym where
  | ret | tab | backspace | escape
  | up | down | left | right | home | endk | pageUp | pageDown | insert | del
  | f (n : Int)
  | focusIn | focusOut
  | ch (cp : Int)
  | mouseCoord (line col : Int)
  | resize (line col : Int)
deriving DecidableEq, Repr

/-- A key event: modifiers plus payload (struct Key of keys.hh). -/
structure Key where
  mods : Modifiers
  sym : KeySym
deriving DecidableEq, Repr

/-- ctrl(cp) from keys.hh: a plain codepoint key with the Control modifier. -/
def ctrlKey (cp : Int) : Key := ⟨{ ctrl := true }, .ch cp⟩

/-- alt(key) from keys.hh: the same key with the Alt modifier added. -/
def altOf (k : Key) : Key := { k with mods := { k.mods with alt := true } }

/-- shift(key) analogue used for CSI Z (Shift+Tab). -/
def shiftOf (k : Key) : Key := { k with mods := { k.mods with shift := true } }

/-- The decoder-visible state of the NCursesUI object together with the two
process-wide sig_atomic_t flags. The two tracked mouse bits of m_mouse_state
(0x1 = left pressed, 0x2 = right pressed, the only bits the source ever reads
or writes) are represented as two Bools. -/
structure UIState where
  mouseLeftPressed : Bool
  mouseRightPressed : Bool
  statusOnTop : Bool
  wheelScrollAmount : Int
  resizePendingFlag : Bool
  sighupRaised : Bool
  mResizePending : Bool
  dimensions : Int × Int
  stdinDisabled : Bool
deriving DecidableEq, Repr

/-- content_line_offset(): 1 if the status bar is on top, else 0. -/
def content_line_offset (s : UIState) : Int := if s.statusOnTop then 1 else 0

/-- get_char(): read one byte from the stream, if available. -/
def get_char : List Nat → Option Nat × List Nat
  | [] => (none, [])
  | b :: rest => (some b, rest)

/-- get_char().value_or(d): read one byte, a missing byte reading as d. -/
def nextCharD (d : Nat) (input : List Nat) : Nat × List Nat :=
  match input with
  | [] => (d, [])
  | b :: rest => (b, rest)

/-- Modelled from the spec: utf8::codepoint (utf8.hh is not under src/)
interprets c as the lead byte of a UTF-8 codepoint and fetches the
continuation bytes from stdin; the CharIterator in parse_key reads a missing
byte as 0 (get_char().value_or(0)). -/
def utf8_codepoint (c : Nat) (input : List Nat) : Int × List Nat :=
  if c < 0x80 then ((c : Int), input)
  else if c < 0xE0 then
    let (c1, i1) := nextCharD 0 input
    (((c % 32) * 64 + c1 % 64 : Nat), i1)
  else if c < 0xF0 then
    let (c1, i1) := nextCharD 0 input
    let (c2, i2) := nextCharD 0 i1
    ((((c % 16) * 64 + c1 % 64) * 64 + c2 % 64 : Nat), i2)
  else
    let (c1, i1) := nextCharD 0 input
    let (c2, i2) := nextCharD 0 i1
    let (c3, i3) := nextCharD 0 i2
    (((((c % 8) * 64 + c1 % 64) * 64 + c2 % 64) * 64 + c3 % 64 : Nat), i3)

/-- parse_key from get_next_key. The result is the parsed key, the remaining
input, and whether SIGTSTP was sent to the process group (the Ctrl-Z branch
executes kill(0, SIGTSTP) and then returns a value-initialised Key, that is a
key with no modifiers and codepoint 0, since the lambda returns Key and not
Optional of Key). -/
def parse_key (c : Nat) (input : List Nat) : Key × List Nat × Bool :=
  if c = 13 ∨ c = 10 then (⟨noMods, .ret⟩, input, false)
  else if c = 9 then (⟨noMods, .tab⟩, input, false)
  else if c = 8 then (⟨noMods, .backspace⟩, input, false)
  else if c = 26 then (⟨noMods, .ch 0⟩, input, true)
  else if c < 27 then (ctrlKey ((c : Int) - 1 + 97), input, false)
  else if c = 127 then (⟨noMods, .backspace⟩, input, false)
  else
    let (cp, rest) := utf8_codepoint c input
    (⟨noMods, .ch cp⟩, rest, false)

/-- parse_mask from parse_csi: bits 1, 2, 4 of the mask select Shift, Alt,
Control. -/
def parse_mask (mask : Int) : Modifiers :=
  { shift := Int.land mask 1 != 0, alt := Int.land mask 2 != 0,
    ctrl := Int.land mask 4 != 0 }

/-- params[i] of parse_csi: the parameter array is zero-initialised, so a
missing parameter reads as 0. -/
def paramAt (ps : List Int) (i : Nat) : Int := ps.getD i 0

/-- masked_key from parse_csi: attach parse_mask(max(params[1] - 1, 0)). -/
def masked_key (ps : List Int) (sym : KeySym) : Key :=
  ⟨parse_mask (max (paramAt ps 1 - 1) 0), sym⟩

/-- mouse_button from parse_csi: on press, a button whose bit is already
tracked in the mouse state yields MousePos (drag), otherwise
MousePressLeft/Right, and the bit is set; on release the bit is cleared and
the key is MouseReleaseLeft/Right. -/
def mouse_button (s : UIState) (mod : Modifiers) (line col : Int)
    (left release : Bool) : Key × UIState :=
  if !release then
    let tracked := if left then s.mouseLeftPressed else s.mouseRightPressed
    let mod :=
      if tracked then { mod with mousePos := true }
      else if left then { mod with mousePressLeft := true }
      else { mod with mousePressRight := true }
    (⟨mod, .mouseCoord line col⟩,
     if left then { s with mouseLeftPressed := true }
     else { s with mouseRightPressed := true })
  else
    let mod :=
      if left then { mod with mouseReleaseLeft := true }
      else { mod with mouseReleaseRight := true }
    (⟨mod, .mouseCoord line col⟩,
     if left then { s with mouseLeftPressed := false }
     else { s with mouseRightPressed := false })

/-- mouse_scroll from parse_csi: a Scroll-modified key whose codepoint payload
is plus or minus the wheel scroll amount. -/
def mouse_scroll (s : UIState) (mod : Modifiers) (down : Bool) : Key :=
  ⟨{ mod with scroll := true }, .ch ((if down then 1 else -1) * s.wheelScrollAmount)⟩

/-- The parameter-scan loop of parse_csi. c is the current byte; up to 16
semicolon-separated decimal parameters are accumulated (done holds the
completed ones, cur the one being built). A byte in [0x30, 0x3f] that is
neither a digit nor a semicolon aborts the parse (first component none).
Otherwise the scan ends at the first byte outside [0x30, 0x3f] (or after
reading one more byte once 16 parameters are complete) and returns the
parameter list and that final byte; reading past the end of the stream
yields 0xff (next_char's value_or), which ends the scan. -/
def csiScan (c : Nat) (input : List Nat) (done : List Int) (cur : Int) :
    Option (List Int × Nat) × List Nat :=
  if done.length < 16 ∧ 48 ≤ c ∧ c ≤ 63 then
    if c ≤ 57 then
      match input with
      | [] => (some (done ++ [cur * 10 + ((c : Int) - 48)], 255), [])
      | b :: rest => csiScan b rest done (cur * 10 + ((c : Int) - 48))
    else if c = 59 then
      match input with
      | [] => (some ((done ++ [cur]) ++ [0], 255), [])
      | b :: rest => csiScan b rest (done ++ [cur]) 0
    else (none, input)
  else (some (done ++ [cur], c), input)

/-- The final-byte dispatch of parse_csi (the switch on the final byte), with
priv the private-mode byte (0 when absent), ps the scanned parameters and
input the bytes following the sequence (an X10 mouse report reads three more
bytes from it). -/
def csiDispatch (s : UIState) (priv : Nat) (ps : List Int) (fin : Nat)
    (input : List Nat) : Option Key × UIState × List Nat :=
  let p0 := paramAt ps 0
  if fin = 65 then (some (masked_key ps .up), s, input)
  else if fin = 66 then (some (masked_key ps .down), s, input)
  else if fin = 67 then (some (masked_key ps .right), s, input)
  else if fin = 68 then (some (masked_key ps .left), s, input)
  else if fin = 70 then (some (masked_key ps .endk), s, input)
  else if fin = 72 then (some (masked_key ps .home), s, input)
  else if fin = 80 then (some (masked_key ps (.f 1)), s, input)
  else if fin = 81 then (some (masked_key ps (.f 2)), s, input)
  else if fin = 82 then (some (masked_key ps (.f 3)), s, input)
  else if fin = 83 then (some (masked_key ps (.f 4)), s, input)
  else if fin = 126 then
    (if p0 = 2 then some (masked_key ps .insert)
     else if p0 = 3 then some (masked_key ps .del)
     else if p0 = 5 then some (masked_key ps .pageUp)
     else if p0 = 6 then some (masked_key ps .pageDown)
     else if p0 = 7 then some (masked_key ps .home)
     else if p0 = 8 then some (masked_key ps .endk)
     else if 11 ≤ p0 ∧ p0 ≤ 15 then some (masked_key ps (.f (1 + p0 - 11)))
     else if 17 ≤ p0 ∧ p0 ≤ 21 then some (masked_key ps (.f (6 + p0 - 17)))
     else if p0 = 23 ∨ p0 = 24 then some (masked_key ps (.f (11 + p0 - 23)))
     else none, s, input)
  else if fin = 117 then (some (masked_key ps (.ch p0)), s, input)
  else if fin = 90 then (some (shiftOf ⟨noMods, .tab⟩), s, input)
  else if fin = 73 then (some ⟨noMods, .focusIn⟩, s, input)
  else if fin = 79 then (some ⟨noMods, .focusOut⟩, s, input)
  else if fin = 77 ∨ fin = 109 then
    let sgr := priv = 60
    if !sgr && fin != 77 then (none, s, input)
    else
      let (b, i1) :=
        if sgr then (p0, input)
        else let (n, r) := nextCharD 255 input; (((n : Int) - 32), r)
      let (xr, i2) :=
        if sgr then (paramAt ps 1, i1)
        else let (n, r) := nextCharD 255 i1; (((n : Int) - 32), r)
      let (yr, i3) :=
        if sgr then (paramAt ps 2, i2)
        else let (n, r) := nextCharD 255 i2; (((n : Int) - 32), r)
      let x := xr - 1
      let y := yr - 1
      let line := y - content_line_offset s
      let mod := parse_mask (Int.land (b >>> (2 : Int)) 7)
      let t := Int.land b 67
      if t = 0 then
        let (k, s2) := mouse_button s mod line x true (fin = 109)
        (some k, s2, i3)
      else if t = 2 then
        let (k, s2) := mouse_button s mod line x false (fin = 109)
        (some k, s2, i3)
      else if t = 3 then
        if sgr then (none, s, i3)
        else if s.mouseLeftPressed then
          let (k, s2) := mouse_button s mod line x true true
          (some k, s2, i3)
        else if s.mouseRightPressed then
          let (k, s2) := mouse_button s mod line x false true
          (some k, s2, i3)
        else (some ⟨{ mousePos := true }, .mouseCoord line x⟩, s, i3)
      else if t = 64 then (some (mouse_scroll s mod false), s, i3)
      else if t = 65 then (some (mouse_scroll s mod true), s, i3)
      else (some ⟨{ mousePos := true }, .mouseCoord line x⟩, s, i3)
  else (none, s, input)

/-- The parameter scan entered at the head of input (the first byte plays the
role of the pre-read c of parse_csi's loop, a missing byte reading as 0xff). -/
def scanFrom (input : List Nat) (done : List Int) (cur : Int) :
    Option (List Int × Nat) × List Nat :=
  let (c, rest) := nextCharD 255 input
  csiScan c rest done cur

/-- The tail of parse_csi after the parameter scan: an aborted scan yields no
key; otherwise the final byte must lie in [0x40, 0x7e] and is dispatched. -/
def csiFinish (s : UIState) (priv : Nat)
    (r : Option (List Int × Nat) × List Nat) : Option Key × UIState × List Nat :=
  match r with
  | (none, rest) => (none, s, rest)
  | (some (ps, fin), rest) =>
    if 64 ≤ fin ∧ fin ≤ 126 then csiDispatch s priv ps fin rest
    else (none, s, rest)

/-- parse_csi: optional private-mode byte in {?, <, =, >}, parameter scan,
then the final byte is dispatched (csiFinish). Returns the key (or none),
the updated state and the remaining input. -/
def parse_csi (s : UIState) (input : List Nat) :
    Option Key × UIState × List Nat :=
  let (c0, in1) := nextCharD 255 input
  if c0 = 63 ∨ c0 = 60 ∨ c0 = 61 ∨ c0 = 62 then
    csiFinish s c0 (scanFrom in1 [] 0)
  else
    csiFinish s 0 (csiScan c0 in1 [] 0)

/-- parse_ss3: one final byte (a missing byte reading as 0xff) dispatched
with no modifiers. -/
def parse_ss3 (input : List Nat) : Option Key × List Nat :=
  let (c, rest) := nextCharD 255 input
  (if c = 65 then some ⟨noMods, .up⟩
   else if c = 66 then some ⟨noMods, .down⟩
   else if c = 67 then some ⟨noMods, .right⟩
   else if c = 68 then some ⟨noMods, .left⟩
   else if c = 70 then some ⟨noMods, .endk⟩
   else if c = 72 then some ⟨noMods, .home⟩
   else if c = 80 then some ⟨noMods, .f 1⟩
   else if c = 81 then some ⟨noMods, .f 2⟩
   else if c = 82 then some ⟨noMods, .f 3⟩
   else if c = 83 then some ⟨noMods, .f 4⟩
   else none, rest)

/-- check_resize(force): exits at once when nothing is pending and not
forced; otherwise it clears the process-wide flag, and when the /dev/tty
TIOCGWINSZ query succeeds (ws carries its result; none models open or ioctl
failure, which skips the cycle silently) it recreates the main window,
sets dimensions to (rows - 1, cols) and raises m_resize_pending. The window
and menu/info recreation acts on the renderer model, which is embedded
separately below; this function captures the decoder-visible effects. -/
def check_resize (force : Bool) (ws : Option (Int × Int)) (s : UIState) :
    UIState :=
  if ¬force ∧ ¬s.resizePendingFlag then s
  else
    let s := { s with resizePendingFlag := false }
    match ws with
    | none => s
    | some (rows, cols) =>
      { s with dimensions := (rows - 1, cols), mResizePending := true }

/-- Result of one get_next_key call: the key (if any), the updated state,
the unread input, and whether SIGTSTP was sent. -/
structure StepResult where
  key : Option Key
  state : UIState
  rest : List Nat
  sigtstp : Bool
deriving DecidableEq, Repr

/-- get_next_key: handle SIGHUP, run check_resize, deliver a pending
synthetic Resize key, else read one byte and decode it; ESC with no
follow-up byte is the Escape key, ESC [ tries parse_csi falling back to
Alt([), ESC O tries parse_ss3 falling back to Alt(O), and any other byte
after ESC decodes through parse_key with Alt added. ws carries the result
of the TIOCGWINSZ query check_resize would make. -/
def get_next_key (ws : Option (Int × Int)) (s : UIState) (input : List Nat) :
    StepResult :=
  if s.sighupRaised then
    ⟨none, { s with stdinDisabled := true }, input, false⟩
  else
    let s := check_resize false ws s
    if s.mResizePending then
      ⟨some ⟨noMods, .resize s.dimensions.1 s.dimensions.2⟩,
       { s with mResizePending := false }, input, false⟩
    else
      match input with
      | [] => ⟨none, s, [], false⟩
      | c :: rest =>
        if c ≠ 27 then
          let (k, r, t) := parse_key c rest
          ⟨some k, s, r, t⟩
        else
          match rest with
          | [] => ⟨some ⟨noMods, .escape⟩, s, [], false⟩
          | n :: rest2 =>
            if n = 91 then
              match parse_csi s rest2 with
              | (some k, s2, r2) => ⟨some k, s2, r2, false⟩
              | (none, s2, r2) => ⟨some (altOf ⟨noMods, .ch 91⟩), s2, r2, false⟩
            else if n = 79 then
              match parse_ss3 rest2 with
              | (some k, r2) => ⟨some k, s, r2, false⟩
              | (none, r2) => ⟨some (altOf ⟨noMods, .ch 79⟩), s, r2, false⟩
            else
              let (k, r, t) := parse_key n rest2
              ⟨some (altOf k), s, r, t⟩

/-! Decimal wire encoding of CSI parameters, used to state claims about
sequences such as CSI 1;5 A for arbitrary parameter values. -/

/-- Least-significant-first decimal digits of n, with an explicit fuel
argument for structural recursion (fuel at least n suffices). -/
def digitsRevAux : Nat → Nat → List Nat
  | 0, _ => []
  | _ + 1, 0 => []
  | f + 1, n + 1 => (n + 1) % 10 :: digitsRevAux f ((n + 1) / 10)

/-- Value of a least-significant-first digit list. -/
def digitsVal : List Nat → Nat
  | [] => 0
  | d :: l => d + 10 * digitsVal l

/-- The ASCII bytes of the decimal representation of n (most significant
digit first); 0 is written as the single byte for the digit 0. -/
def encodeNat (n : Nat) : List Nat :=
  if n = 0 then [48] else (digitsRevAux n n).reverse.map (fun d => d + 48)

/-- The wire form of a CSI parameter list: decimal numbers separated by
semicolons. -/
def encParams : List Nat → List Nat
  | [] => []
  | [n] => encodeNat n
  | n :: rest => encodeNat n ++ 59 :: encParams rest

/-- One step of the decimal accumulation params[count] * 10 + c - '0'. -/
def digitStep (x : Int) (d : Nat) : Int := x * 10 + ((d : Int) - 48)

/-- One step of plain decimal accumulation over digit values. -/
def valStep (x : Int) (d : Nat) : Int := x * 10 + (d : Int)

theorem digitsVal_digitsRevAux : ∀ f n, n ≤ f → digitsVal (digitsRevAux f n) = n := by
  intro f
  induction f with
  | zero =>
    intro n h
    have : n = 0 := by omega
    subst this
    rfl
  | succ f ih =>
    intro n h
    match n with
    | 0 => rfl
    | m + 1 =>
      have hd : (m + 1) / 10 ≤ f := by
        have := Nat.div_lt_self (Nat.succ_pos m) (by norm_num : 1 < 10)
        omega
      show (m + 1) % 10 + 10 * digitsVal (digitsRevAux f ((m + 1) / 10)) = m + 1
      rw [ih _ hd]
      omega

theorem mem_digitsRevAux_lt : ∀ f n d, d ∈ digitsRevAux f n → d < 10 := by
  intro f
  induction f with
  | zero => intro n d h; simp [digitsRevAux] at h
  | succ f ih =>
    intro n d h
    match n with
    | 0 => simp [digitsRevAux] at h
    | m + 1 =>
      simp only [digitsRevAux, List.mem_cons] at h
      rcases h with h | h
      · subst h; exact Nat.mod_lt _ (by norm_num)
      · exact ih _ _ h

theorem encodeNat_ne_nil (n : Nat) : encodeNat n ≠ [] := by
  unfold encodeNat
  split
  · simp
  · rename_i h
    match n, h with
    | m + 1, _ => simp [digitsRevAux]

theorem encodeNat_digits (n : Nat) : ∀ d ∈ encodeNat n, 48 ≤ d ∧ d ≤ 57 := by
  intro d hd
  unfold encodeNat at hd
  split at hd
  · simp at hd; omega
  · simp only [List.mem_map, List.mem_reverse] at hd
    obtain ⟨e, he, rfl⟩ := hd
    have := mem_digitsRevAux_lt _ _ _ he
    omega

theorem foldl_digits_map48 : ∀ (l : List Nat) (a : Int),
    List.foldl digitStep a (l.map (fun d => d + 48)) = List.foldl valStep a l := by
  intro l
  induction l with
  | nil => intro a; simp
  | cons d l ih =>
    intro a
    simp only [List.map_cons, List.foldl_cons, ih]
    congr 1
    simp only [digitStep, valStep]
    push_cast
    ring

theorem foldl_digits_reverse : ∀ (l : List Nat) (a : Int),
    List.foldl valStep a l.reverse = a * 10 ^ l.length + (digitsVal l : Int) := by
  intro l
  induction l with
  | nil => intro a; simp [digitsVal]
  | cons d l ih =>
    intro a
    simp only [List.reverse_cons, List.foldl_append, List.foldl_cons,
      List.foldl_nil, ih, digitsVal, List.length_cons]
    simp only [valStep]
    push_cast
    ring

theorem foldl_encodeNat (n : Nat) :
    List.foldl digitStep 0 (encodeNat n) = (n : Int) := by
  unfold encodeNat
  split
  · rename_i h; subst h; simp [digitStep]
  · rw [foldl_digits_map48, foldl_digits_reverse, digitsVal_digitsRevAux n n le_rfl]
    simp

/-- Scanning a run of digit bytes folds them into the current parameter. -/
theorem csiScan_digitRun : ∀ (ds : List Nat) (c b : Nat) (rest : List Nat)
    (done : List Int) (cur : Int), 48 ≤ c → c ≤ 57 →
    (∀ d ∈ ds, 48 ≤ d ∧ d ≤ 57) → done.length < 16 →
    csiScan c (ds ++ b :: rest) done cur =
      csiScan b rest done (List.foldl digitStep cur (c :: ds)) := by
  intro ds
  induction ds with
  | nil =>
    intro c b rest done cur h48 h57 _ hlen
    rw [csiScan.eq_def]
    simp only [List.nil_append, List.foldl_cons, List.foldl_nil]
    rw [if_pos ⟨hlen, h48, by omega⟩, if_pos (by omega)]
    rfl
  | cons d ds ih =>
    intro c b rest done cur h48 h57 hds hlen
    rw [csiScan.eq_def]
    simp only [List.cons_append]
    rw [if_pos ⟨hlen, h48, by omega⟩, if_pos (by omega)]
    rw [ih d b rest done _ (hds d (by simp)).1 (hds d (by simp)).2
      (fun e he => hds e (by simp [he])) hlen]
    simp [digitStep]

/-- A semicolon finishes the current parameter and the scan continues at the
head of the remaining input. -/
theorem csiScan_semi (input : List Nat) (done : List Int) (cur : Int)
    (hlen : done.length < 16) (hne : input ≠ []) :
    csiScan 59 input done cur = scanFrom input (done ++ [cur]) 0 := by
  match input, hne with
  | b :: rest, _ =>
    rw [csiScan.eq_def]
    simp [scanFrom, nextCharD, hlen]

/-- A byte outside the parameter range ends the scan as the final byte. -/
theorem csiScan_exit (c : Nat) (input : List Nat) (done : List Int) (cur : Int)
    (h : ¬(48 ≤ c ∧ c ≤ 63)) :
    csiScan c input done cur = (some (done ++ [cur], c), input) := by
  rw [csiScan.eq_def]
  rw [if_neg (by intro hc; exact h ⟨hc.2.1, hc.2.2⟩)]

/-- Scanning from an encoded number continues at the following byte with the
number as the current parameter value. -/
theorem scanFrom_encodeNat (n b : Nat) (rest : List Nat) (done : List Int)
    (hlen : done.length < 16) :
    scanFrom (encodeNat n ++ b :: rest) done 0 = csiScan b rest done (n : Int) := by
  have hne := encodeNat_ne_nil n
  have hdig := encodeNat_digits n
  match he : encodeNat n, hne with
  | c :: ds, _ =>
    rw [he] at hdig
    have h1 := hdig c (by simp)
    rw [List.cons_append, scanFrom]
    simp only [nextCharD]
    rw [csiScan_digitRun ds c b rest done 0 h1.1 h1.2
      (fun d hd => hdig d (by simp [hd])) hlen]
    have hval : List.foldl digitStep 0 (c :: ds) = (n : Int) := by
      rw [← he]; exact foldl_encodeNat n
    rw [hval]

theorem encParams_ne_nil (ps : List Nat) (h : ps ≠ []) : encParams ps ≠ [] := by
  match ps, h with
  | [n], _ => simpa [encParams] using encodeNat_ne_nil n
  | n :: m :: tl, _ =>
    simp [encParams, encodeNat_ne_nil n]

/-- Scanning an encoded parameter list ends at the given final byte with
exactly those parameters. -/
theorem scanFrom_params : ∀ (ps : List Nat), ps ≠ [] → ∀ (done : List Int),
    done.length + ps.length ≤ 16 → ∀ (fin : Nat), ¬(48 ≤ fin ∧ fin ≤ 63) →
    ∀ (rest : List Nat),
    scanFrom (encParams ps ++ fin :: rest) done 0 =
      (some (done ++ ps.map (fun n => (n : Int)), fin), rest) := by
  intro ps
  induction ps with
  | nil => intro h; exact absurd rfl h
  | cons n tl ih =>
    intro _ done hlen fin hfin rest
    match tl with
    | [] =>
      simp only [encParams]
      rw [scanFrom_encodeNat n fin rest done (by simp at hlen; omega)]
      rw [csiScan_exit _ _ _ _ hfin]
      simp
    | m :: tl' =>
      have hformula : encParams (n :: m :: tl') = encodeNat n ++ 59 :: encParams (m :: tl') := by
        simp [encParams]
      rw [hformula]
      have hlen' : done.length < 16 := by simp at hlen; omega
      rw [List.append_assoc, List.cons_append]
      rw [scanFrom_encodeNat n 59 (encParams (m :: tl') ++ fin :: rest) done hlen']
      rw [csiScan_semi _ _ _ hlen'
        (by
          intro hc
          have := encParams_ne_nil (m :: tl') (by simp)
          rcases List.append_eq_nil.mp hc with ⟨h1, _⟩
          exact this h1)]
      rw [ih (by simp) (done ++ [(n : Int)]) (by simp at hlen ⊢; omega) fin hfin rest]
      simp

theorem encParams_head_digit (ps : List Nat) (hps : ps ≠ []) (c : Nat) (tl : List Nat)
    (h : encParams ps = c :: tl) : 48 ≤ c ∧ c ≤ 57 := by
  match ps, hps with
  | [n], _ =>
    simp only [encParams] at h
    exact encodeNat_digits n c (by rw [h]; simp)
  | n :: m :: tl', _ =>
    have hne := encodeNat_ne_nil n
    match he : encodeNat n, hne with
    | e :: es, _ =>
      rw [show encParams (n :: m :: tl') = encodeNat n ++ 59 :: encParams (m :: tl')
        from by simp [encParams], he] at h
      simp only [List.cons_append, List.cons.injEq] at h
      have h1 := encodeNat_digits n e (by rw [he]; simp)
      omega

/-- A scan result r fully determines parse_csi on a private-mode sequence. -/
theorem parse_csi_private (s : UIState) (p : Nat) (tail : List Nat)
    (hp : p = 63 ∨ p = 60 ∨ p = 61 ∨ p = 62) :
    parse_csi s (p :: tail) = csiFinish s p (scanFrom tail [] 0) := by
  unfold parse_csi
  simp [nextCharD, hp]

/-- parse_csi on a SGR-style sequence: private-mode byte <, an encoded
parameter list, and a valid final byte, reduces to the final-byte dispatch on
exactly those parameters. -/
theorem parse_csi_sgr (s : UIState) (ps : List Nat) (hps : ps ≠ [])
    (hlen : ps.length ≤ 16) (fin : Nat) (hfin : 64 ≤ fin ∧ fin ≤ 126)
    (rest : List Nat) :
    parse_csi s (60 :: (encParams ps ++ fin :: rest)) =
      csiDispatch s 60 (ps.map (fun n => (n : Int))) fin rest := by
  rw [parse_csi_private s 60 _ (by omega)]
  rw [scanFrom_params ps hps [] (by simpa using hlen) fin (by omega) rest]
  simp [csiFinish, hfin.1, hfin.2]

/-- parse_csi on a plain (non-private) sequence of encoded parameters and a
valid final byte reduces to the final-byte dispatch. -/
theorem parse_csi_params (s : UIState) (ps : List Nat) (hps : ps ≠ [])
    (hlen : ps.length ≤ 16) (fin : Nat) (hfin : 64 ≤ fin ∧ fin ≤ 126)
    (rest : List Nat) :
    parse_csi s (encParams ps ++ fin :: rest) =
      csiDispatch s 0 (ps.map (fun n => (n : Int))) fin rest := by
  have h := scanFrom_params ps hps [] (by simpa using hlen) fin (by omega) rest
  obtain ⟨c, tl, hct⟩ : ∃ c tl, encParams ps = c :: tl := by
    cases hcp : encParams ps with
    | nil => exact absurd hcp (encParams_ne_nil ps hps)
    | cons c tl => exact ⟨c, tl, rfl⟩
  have hc := encParams_head_digit ps hps c tl hct
  rw [hct] at h ⊢
  rw [List.cons_append]
  unfold parse_csi
  simp only [nextCharD]
  rw [if_neg (by omega)]
  rw [show csiScan c (tl ++ fin :: rest) [] 0 = scanFrom (c :: (tl ++ fin :: rest)) [] 0
    from by simp [scanFrom, nextCharD]]
  rw [show (c :: (tl ++ fin :: rest)) = (c :: tl) ++ fin :: rest from by simp]
  rw [h]
  simp [csiFinish, hfin.1, hfin.2]

/-- parse_csi when the first byte is already a (non-private) final byte:
all parameters default to 0. -/
theorem parse_csi_immediate (s : UIState) (fin : Nat) (tail : List Nat)
    (hnp : ¬(fin = 63 ∨ fin = 60 ∨ fin = 61 ∨ fin = 62))
    (hfin : 64 ≤ fin ∧ fin ≤ 126) :
    parse_csi s (fin :: tail) = csiDispatch s 0 [0] fin tail := by
  unfold parse_csi
  simp only [nextCharD]
  rw [if_neg hnp]
  rw [csiScan_exit fin tail [] 0 (by omega)]
  simp [csiFinish, hfin.1, hfin.2]

/-- A get_next_key call on ESC [ followed by more bytes hands over to
parse_csi, falling back to Alt([) when it fails, provided no signal flag or
pending resize intervenes. -/
theorem get_next_key_csi (ws : Option (Int × Int)) (s : UIState)
    (rest : List Nat) (h1 : s.sighupRaised = false)
    (h2 : s.resizePendingFlag = false) (h3 : s.mResizePending = false) :
    get_next_key ws s (27 :: 91 :: rest) =
      (match parse_csi s rest with
       | (some k, s2, r2) => ⟨some k, s2, r2, false⟩
       | (none, s2, r2) => ⟨some (altOf ⟨noMods, .ch 91⟩), s2, r2, false⟩) := by
  have hcr : check_resize false ws s = s := by
    unfold check_resize
    simp [h2]
  unfold get_next_key
  rw [hcr]
  simp [h1, h3]

/-- The companion of get_next_key_csi for ESC O and parse_ss3. -/
theorem get_next_key_ss3 (ws : Option (Int × Int)) (s : UIState)
    (rest : List Nat) (h1 : s.sighupRaised = false)
    (h2 : s.resizePendingFlag = false) (h3 : s.mResizePending = false) :
    get_next_key ws s (27 :: 79 :: rest) =
      (match parse_ss3 rest with
       | (some k, r2) => ⟨some k, s, r2, false⟩
       | (none, r2) => ⟨some (altOf ⟨noMods, .ch 79⟩), s, r2, false⟩) := by
  have hcr : check_resize false ws s = s := by
    unfold check_resize
    simp [h2]
  unfold get_next_key
  rw [hcr]
  simp [h1, h3]

/-! Claim theorems for the input decoder. -/

/-- A concrete quiescent UI state used by witnesses and counterexamples:
no mouse button tracked, status bar at the bottom, default wheel amount,
no pending signal flags, dimensions 23 x 80. -/
def witState : UIState :=
  ⟨false, false, false, 3, false, false, false, (23, 80), false⟩

/-- C1: for every modifier mask m in 0..7, the byte sequence
ESC [ 1 ; digits-of(m+1) A makes get_next_key return Up with modifiers
exactly Shift if bit 0 of m, Alt if bit 1, Control if bit 2; and in general
the second CSI parameter p yields modifiers parse_mask (max (p - 1) 0). -/
theorem c1_csi_modifier_decoding (ws : Option (Int × Int)) (s : UIState)
    (h1 : s.sighupRaised = false) (h2 : s.resizePendingFlag = false)
    (h3 : s.mResizePending = false) :
    (∀ m : Nat, m < 8 →
      (get_next_key ws s (27 :: 91 :: (encParams [1, m + 1] ++ [65]))).key =
        some ⟨{ shift := m.testBit 0, alt := m.testBit 1, ctrl := m.testBit 2 },
              .up⟩) ∧
    (∀ p : Nat,
      (get_next_key ws s (27 :: 91 :: (encParams [1, p] ++ [65]))).key =
        some ⟨parse_mask (max ((p : Int) - 1) 0), .up⟩) := by
  have general : ∀ p : Nat,
      (get_next_key ws s (27 :: 91 :: (encParams [1, p] ++ [65]))).key =
        some ⟨parse_mask (max ((p : Int) - 1) 0), .up⟩ := by
    intro p
    rw [get_next_key_csi ws s _ h1 h2 h3]
    rw [show (encParams [1, p] ++ [65]) = encParams [1, p] ++ 65 :: [] from rfl]
    rw [parse_csi_params s [1, p] (by simp) (by simp) 65 (by omega) []]
    simp [csiDispatch, masked_key, paramAt]
  refine ⟨fun m hm => ?_, general⟩
  rw [general (m + 1)]
  have hmax : max (((m + 1 : Nat) : Int) - 1) 0 = (m : Int) := by
    push_cast
    omega
  rw [hmax]
  interval_cases m <;> decide

/-- C1 witness: mask m = 5 (Shift and Control) on CSI 1;6 A. -/
theorem c1_witness :
    (5 : Nat) < 8 ∧
    (get_next_key none witState (27 :: 91 :: (encParams [1, 5 + 1] ++ [65]))).key =
      some ⟨{ shift := true, ctrl := true }, .up⟩ := by
  refine ⟨by norm_num, ?_⟩
  have h := (c1_csi_modifier_decoding none witState rfl rfl rfl).1 5 (by norm_num)
  rw [h]
  decide

/-- C2: SGR mouse round trip. With no tracked left button, the sequence
CSI < b ; x ; y M with (b and 0x43) = 0 yields MousePressLeft at screen
coordinate (y - 1 - content_line_offset, x - 1) and marks the left button
tracked; from that state a second press-style report (any b2 with
(b2 and 0x43) = 0) yields MousePos (drag) keeping the button tracked; and
the matching final-byte-m report yields MouseReleaseLeft at the same
coordinate, clearing the tracked bit. -/
theorem c2_sgr_mouse_round_trip (ws : Option (Int × Int)) (s : UIState)
    (b x y b2 x2 y2 : Nat)
    (h1 : s.sighupRaised = false) (h2 : s.resizePendingFlag = false)
    (h3 : s.mResizePending = false) (hl : s.mouseLeftPressed = false)
    (hb : Int.land (b : Int) 67 = 0) (hb2 : Int.land (b2 : Int) 67 = 0) :
    get_next_key ws s (27 :: 91 :: 60 :: (encParams [b, x, y] ++ [77])) =
      ⟨some ⟨{ parse_mask (Int.land ((b : Int) >>> (2 : Int)) 7) with
               mousePressLeft := true },
             .mouseCoord ((y : Int) - 1 - content_line_offset s) ((x : Int) - 1)⟩,
       { s with mouseLeftPressed := true }, [], false⟩ ∧
    get_next_key ws { s with mouseLeftPressed := true }
        (27 :: 91 :: 60 :: (encParams [b2, x2, y2] ++ [77])) =
      ⟨some ⟨{ parse_mask (Int.land ((b2 : Int) >>> (2 : Int)) 7) with
               mousePos := true },
             .mouseCoord ((y2 : Int) - 1 - content_line_offset s) ((x2 : Int) - 1)⟩,
       { s with mouseLeftPressed := true }, [], false⟩ ∧
    get_next_key ws { s with mouseLeftPressed := true }
        (27 :: 91 :: 60 :: (encParams [b, x, y] ++ [109])) =
      ⟨some ⟨{ parse_mask (Int.land ((b : Int) >>> (2 : Int)) 7) with
               mouseReleaseLeft := true },
             .mouseCoord ((y : Int) - 1 - content_line_offset s) ((x : Int) - 1)⟩,
       { s with mouseLeftPressed := false }, [], false⟩ := by
  refine ⟨?_, ?_, ?_⟩
  · rw [get_next_key_csi ws s _ h1 h2 h3]
    rw [show (60 :: (encParams [b, x, y] ++ [77]) : List Nat) =
      60 :: (encParams [b, x, y] ++ 77 :: []) from rfl]
    rw [parse_csi_sgr s [b, x, y] (by simp) (by simp) 77 (by omega) []]
    simp [csiDispatch, paramAt, hb, mouse_button, hl]
  · rw [get_next_key_csi ws { s with mouseLeftPressed := true } _
      (by simpa using h1) (by simpa using h2) (by simpa using h3)]
    rw [show (60 :: (encParams [b2, x2, y2] ++ [77]) : List Nat) =
      60 :: (encParams [b2, x2, y2] ++ 77 :: []) from rfl]
    rw [parse_csi_sgr _ [b2, x2, y2] (by simp) (by simp) 77 (by omega) []]
    simp [csiDispatch, paramAt, hb2, mouse_button, content_line_offset]
  · rw [get_next_key_csi ws { s with mouseLeftPressed := true } _
      (by simpa using h1) (by simpa using h2) (by simpa using h3)]
    rw [show (60 :: (encParams [b, x, y] ++ [109]) : List Nat) =
      60 :: (encParams [b, x, y] ++ 109 :: []) from rfl]
    rw [parse_csi_sgr _ [b, x, y] (by simp) (by simp) 109 (by omega) []]
    simp [csiDispatch, paramAt, hb, mouse_button, content_line_offset]

/-- C2 witness: button code 0 pressed at (column 11, row 5), dragged to
(column 3, row 4), released at (column 11, row 5). -/
theorem c2_witness :
    get_next_key none witState (27 :: 91 :: 60 :: (encParams [0, 11, 5] ++ [77])) =
      ⟨some ⟨{ parse_mask (Int.land ((0 : Int) >>> (2 : Int)) 7) with
               mousePressLeft := true },
             .mouseCoord ((5 : Int) - 1 - content_line_offset witState) ((11 : Int) - 1)⟩,
       { witState with mouseLeftPressed := true }, [], false⟩ ∧
    get_next_key none { witState with mouseLeftPressed := true }
        (27 :: 91 :: 60 :: (encParams [0, 3, 4] ++ [77])) =
      ⟨some ⟨{ parse_mask (Int.land ((0 : Int) >>> (2 : Int)) 7) with
               mousePos := true },
             .mouseCoord ((4 : Int) - 1 - content_line_offset witState) ((3 : Int) - 1)⟩,
       { witState with mouseLeftPressed := true }, [], false⟩ ∧
    get_next_key none { witState with mouseLeftPressed := true }
        (27 :: 91 :: 60 :: (encParams [0, 11, 5] ++ [109])) =
      ⟨some ⟨{ parse_mask (Int.land ((0 : Int) >>> (2 : Int)) 7) with
               mouseReleaseLeft := true },
             .mouseCoord ((5 : Int) - 1 - content_line_offset witState) ((11 : Int) - 1)⟩,
       { witState with mouseLeftPressed := false }, [], false⟩ := by
  have h := c2_sgr_mouse_round_trip none witState 0 11 5 0 3 4
    rfl rfl rfl rfl (by decide) (by decide)
  simpa using h

/-- C3 counterexample: on the malformed sequence ESC [ : (0x3a aborts the
parameter scan), get_next_key returns the key Alt+[ — not no key — having
consumed the whole sequence. -/
theorem c3_counterexample :
    (get_next_key none witState [27, 91, 58]).key = some (altOf ⟨noMods, .ch 91⟩) ∧
    (get_next_key none witState [27, 91, 58]).key ≠ none ∧
    (get_next_key none witState [27, 91, 58]).rest = [] := by
  constructor
  · rfl
  constructor
  · decide
  · rfl

/-- C3 (amended): when parse_csi fails on the bytes after ESC [ (malformed
parameter byte, invalid final byte, or the stream running dry), get_next_key
returns Alt([) — not no key — consuming exactly what the parser read, and
likewise Alt(O) when parse_ss3 fails after ESC O; decoding resumes at the
next unread byte. -/
theorem c3_malformed_csi_alt (ws : Option (Int × Int)) (s : UIState)
    (rest : List Nat) (h1 : s.sighupRaised = false)
    (h2 : s.resizePendingFlag = false) (h3 : s.mResizePending = false) :
    ((parse_csi s rest).1 = none →
      get_next_key ws s (27 :: 91 :: rest) =
        ⟨some (altOf ⟨noMods, .ch 91⟩), (parse_csi s rest).2.1,
         (parse_csi s rest).2.2, false⟩) ∧
    ((parse_ss3 rest).1 = none →
      get_next_key ws s (27 :: 79 :: rest) =
        ⟨some (altOf ⟨noMods, .ch 79⟩), s, (parse_ss3 rest).2, false⟩) := by
  constructor
  · intro h
    rw [get_next_key_csi ws s rest h1 h2 h3]
    rcases hp : parse_csi s rest with ⟨ok, s2, r2⟩
    rw [hp] at h
    simp at h
    subst h
    simp [hp]
  · intro h
    rw [get_next_key_ss3 ws s rest h1 h2 h3]
    rcases hp : parse_ss3 rest with ⟨ok, r2⟩
    rw [hp] at h
    simp at h
    subst h
    simp [hp]

/-- C3 witness: the aborting byte 0x3a after ESC [, and the invalid SS3
final byte 0x20 after ESC O. -/
theorem c3_witness :
    (parse_csi witState [58]).1 = none ∧
    get_next_key none witState [27, 91, 58] =
      ⟨some (altOf ⟨noMods, .ch 91⟩), (parse_csi witState [58]).2.1,
       (parse_csi witState [58]).2.2, false⟩ ∧
    (parse_ss3 [32]).1 = none ∧
    get_next_key none witState [27, 79, 32] =
      ⟨some (altOf ⟨noMods, .ch 79⟩), witState, (parse_ss3 [32]).2, false⟩ := by
  have h := c3_malformed_csi_alt none witState [58] rfl rfl rfl
  have h' := c3_malformed_csi_alt none witState [32] rfl rfl rfl
  exact ⟨by decide, h.1 (by decide), by decide, h'.2 (by decide)⟩

/-- C4 counterexample: the bytes ESC ESC [ A do not decode to a single Alt+Up
key: the first get_next_key call returns Alt+(codepoint 27) and leaves the
bytes [ A unread. -/
theorem c4_counterexample :
    (get_next_key none witState [27, 27, 91, 65]).key =
      some ⟨{ alt := true }, .ch 27⟩ ∧
    (get_next_key none witState [27, 27, 91, 65]).key ≠
      some ⟨{ alt := true }, .up⟩ ∧
    (get_next_key none witState [27, 27, 91, 65]).rest = [91, 65] := by
  refine ⟨rfl, by decide, rfl⟩

/-- C4 (amended): feeding 0x1b 0x1b 0x5b 0x41 yields three keys, not one:
the second ESC is decoded by parse_key as codepoint 27 and gets Alt added
(the ESC-prefix branch never re-enters the CSI parser), then [ and A decode
as the plain keys codepoint 91 and codepoint 65. -/
theorem c4_double_escape_decode (ws : Option (Int × Int)) (s : UIState)
    (h1 : s.sighupRaised = false) (h2 : s.resizePendingFlag = false)
    (h3 : s.mResizePending = false) :
    get_next_key ws s [27, 27, 91, 65] = ⟨some ⟨{ alt := true }, .ch 27⟩, s, [91, 65], false⟩ ∧
    get_next_key ws s [91, 65] = ⟨some ⟨noMods, .ch 91⟩, s, [65], false⟩ ∧
    get_next_key ws s [65] = ⟨some ⟨noMods, .ch 65⟩, s, [], false⟩ := by
  have hcr : check_resize false ws s = s := by
    unfold check_resize
    simp [h2]
  refine ⟨?_, ?_, ?_⟩ <;>
    · unfold get_next_key
      rw [hcr]
      simp [h1, h3, parse_key, utf8_codepoint, altOf, noMods]

/-- C4 witness: the amended decode chain at the concrete quiescent state. -/
theorem c4_witness :
    get_next_key none witState [27, 27, 91, 65] =
      ⟨some ⟨{ alt := true }, .ch 27⟩, witState, [91, 65], false⟩ ∧
    get_next_key none witState [91, 65] =
      ⟨some ⟨noMods, .ch 91⟩, witState, [65], false⟩ ∧
    get_next_key none witState [65] =
      ⟨some ⟨noMods, .ch 65⟩, witState, [], false⟩ :=
  c4_double_escape_decode none witState rfl rfl rfl

/-- C8: whenever the process-wide resize_pending flag is raised, SIGHUP is
not, and the TIOCGWINSZ query succeeds with (rows, cols), get_next_key
returns the synthetic Resize(rows - 1, cols) key and reads no byte from
stdin (the input is left untouched), so a pending resize is delivered before
the next real key. -/
theorem c8_resize_before_input (s : UIState) (rows cols : Int)
    (input : List Nat) (h1 : s.sighupRaised = false)
    (h2 : s.resizePendingFlag = true) :
    get_next_key (some (rows, cols)) s input =
      ⟨some ⟨noMods, .resize (rows - 1) cols⟩,
       { s with resizePendingFlag := false, dimensions := (rows - 1, cols),
                mResizePending := false },
       input, false⟩ := by
  unfold get_next_key check_resize
  simp [h1, h2]

/-- C8 witness: a 24 x 80 terminal answer with a raised resize flag and a
byte waiting on stdin: the Resize key is delivered and the byte stays. -/
theorem c8_witness :
    get_next_key (some (24, 80)) { witState with resizePendingFlag := true } [65] =
      ⟨some ⟨noMods, .resize 23 80⟩,
       { witState with resizePendingFlag := false, dimensions := (23, 80),
                       mResizePending := false },
       [65], false⟩ := by
  have h := c8_resize_before_input { witState with resizePendingFlag := true }
    24 80 [65] rfl rfl
  rw [h]
  decide

/-- C9 counterexample: on the byte 0x1a (Ctrl-Z) the decoder does send
SIGTSTP, but get_next_key returns an engaged key (the value-initialised
Key, codepoint 0) rather than no key. -/
theorem c9_counterexample :
    (get_next_key none witState [26]).sigtstp = true ∧
    (get_next_key none witState [26]).key ≠ none ∧
    (get_next_key none witState [26]).key = some ⟨noMods, .ch 0⟩ := by
  refine ⟨rfl, by decide, rfl⟩

/-- C9 (amended): when the byte read is Ctrl-Z (0x1a) the decoder sends
SIGTSTP to the process group and returns the value-initialised key
(no modifiers, codepoint 0) — parse_key returns Key, not an optional, so its
return {} is a real key — leaving the rest of the stream unread. -/
theorem c9_ctrl_z (ws : Option (Int × Int)) (s : UIState)
    (h1 : s.sighupRaised = false) (h2 : s.resizePendingFlag = false)
    (h3 : s.mResizePending = false) :
    get_next_key ws s [26] = ⟨some ⟨noMods, .ch 0⟩, s, [], true⟩ := by
  have hcr : check_resize false ws s = s := by
    unfold check_resize
    simp [h2]
  unfold get_next_key
  rw [hcr]
  simp [h1, h3, parse_key]

/-- C9 witness: Ctrl-Z at the concrete quiescent state. -/
theorem c9_witness :
    get_next_key none witState [26] = ⟨some ⟨noMods, .ch 0⟩, witState, [], true⟩ :=
  c9_ctrl_z none witState rfl rfl rfl

/-- C10: an X10 mouse report (ESC [ M, then three bytes value+32) whose
button code has (code and 0x43) = 3 — the X10 release encoding — while
neither mouse button is tracked yields a MousePos key at the decoded
coordinate (not a release, not the absence of a key), and leaves the
tracked mouse state unchanged. -/
theorem c10_x10_release_untracked (ws : Option (Int × Int)) (s : UIState)
    (bb bx by2 : Nat) (tail : List Nat)
    (h1 : s.sighupRaised = false) (h2 : s.resizePendingFlag = false)
    (h3 : s.mResizePending = false) (hl : s.mouseLeftPressed = false)
    (hr : s.mouseRightPressed = false)
    (hb : Int.land ((bb : Int) - 32) 67 = 3) :
    get_next_key ws s (27 :: 91 :: 77 :: bb :: bx :: by2 :: tail) =
      ⟨some ⟨{ mousePos := true },
             .mouseCoord ((by2 : Int) - 32 - 1 - content_line_offset s)
                         ((bx : Int) - 32 - 1)⟩,
       s, tail, false⟩ := by
  rw [get_next_key_csi ws s _ h1 h2 h3]
  rw [parse_csi_immediate s 77 _ (by omega) (by omega)]
  simp only [csiDispatch, paramAt, nextCharD]
  norm_num [hb, hl, hr]

/-- C10 witness: button byte 35 (code 3), x byte 42, y byte 37: MousePos at
line 4, column 9 with the mouse state untouched. -/
theorem c10_witness :
    get_next_key none witState [27, 91, 77, 35, 42, 37] =
      ⟨some ⟨{ mousePos := true }, .mouseCoord 4 9⟩, witState, [], false⟩ := by
  have h := c10_x10_release_untracked none witState 35 42 37 [] rfl rfl rfl rfl rfl
    (by decide)
  rw [h]
  decide

/-! The Window draw model (NCursesUI::Window). Text is modelled as a list of
codepoints, each one column wide; the column-width and byte-count primitives
live in the external string utilities outside src/, so this is the unit-width
embedding of the column arithmetic the source performs through them. -/

/-- A face: foreground, background and attribute bits (the merge operation
merge_faces is an external display primitive and is passed in explicitly
where needed). -/
structure Face where
  fg : Int
  bg : Int
  attrs : Int
deriving DecidableEq, Repr

/-- An atom: a run of text under one face. -/
structure DisplayAtom where
  text : List Int
  face : Face
deriving DecidableEq, Repr

/-- column_length of an atom's text (unit-width codepoints). -/
def DisplayAtom.colLen (a : DisplayAtom) : Nat := a.text.length

/-- Total column length of a line of atoms. -/
def lineLen (l : List DisplayAtom) : Nat := (l.map DisplayAtom.colLen).sum

/-- NCursesUI::Window: position, size, cursor and the grid of lines. -/
structure Window where
  pos : Int × Int
  size : Int × Int
  cursor : Int × Int
  lines : List (List DisplayAtom)
deriving DecidableEq, Repr

/-- Window::create: assign pos and size and resize the line vector (resize
keeps an existing prefix and fills with empty lines). -/
def Window.create (w : Window) (p s : Int × Int) : Window :=
  { w with pos := p, size := s,
           lines := w.lines.take s.1.toNat ++
             List.replicate (s.1.toNat - w.lines.length) [] }

/-- Window::move_cursor. -/
def Window.move_cursor (w : Window) (coord : Int × Int) : Window :=
  { w with cursor := coord }

/-- The truncation loop of Window::clear_line: keep whole atoms while the
accumulated column stays below the target, and re-slice the last kept atom on
the column boundary when it overshoots. -/
def truncAtoms : List DisplayAtom → Int → List DisplayAtom
  | [], _ => []
  | a :: as, t =>
    if 0 < t then
      if (a.colLen : Int) ≤ t then a :: truncAtoms as (t - (a.colLen : Int))
      else [{ a with text := a.text.take t.toNat }]
    else []

/-- Window::clear_line: truncate the line under the cursor to cursor.column
columns. -/
def Window.clear_line (w : Window) : Window :=
  let i := w.cursor.1.toNat
  { w with lines := w.lines.set i (truncAtoms (w.lines.getD i []) w.cursor.2) }

/-- The atoms Window::draw pushes for one input atom: an empty content is
skipped, text ending in a newline is split into the text without the newline
plus a single-space atom, both with the merged face; otherwise the atom is
pushed whole with the merged face. -/
def pushedOf (merge : Face → Face → Face) (df : Face) (atom : DisplayAtom) :
    List DisplayAtom :=
  let face := merge df atom.face
  if atom.text.getLast? = some 10 then
    [⟨atom.text.dropLast, face⟩, ⟨[32], face⟩]
  else [⟨atom.text, face⟩]

/-- One iteration of Window::draw's loop: push the atom's pieces and advance
the cursor column by the atom's full column length. -/
def drawStep (merge : Face → Face → Face) (df : Face)
    (acc : List DisplayAtom × Int) (atom : DisplayAtom) :
    List DisplayAtom × Int :=
  if atom.text = [] then acc
  else (acc.1 ++ pushedOf merge df atom, acc.2 + (atom.colLen : Int))

/-- Window::draw: clear_line, then append each atom's pieces, then pad with
spaces in the default face when the cursor column is short of the window
width. -/
def Window.draw (w : Window) (merge : Face → Face → Face)
    (atoms : List DisplayAtom) (df : Face) : Window :=
  let w1 := w.clear_line
  let i := w1.cursor.1.toNat
  let folded := atoms.foldl (drawStep merge df) ([], w1.cursor.2)
  let line := w1.lines.getD i [] ++ folded.1
  let line :=
    if folded.2 < w1.size.2 then
      line ++ [⟨List.replicate (w1.size.2 - folded.2).toNat 32, df⟩]
    else line
  { w1 with lines := w1.lines.set i line, cursor := (w1.cursor.1, folded.2) }

/-- The two invariants of section 4.2: every non-empty line spans exactly the
window width, and no stored atom contains a newline. -/
def WindowInv (w : Window) : Prop :=
  ∀ l ∈ w.lines,
    (l = [] ∨ (lineLen l : Int) = w.size.2) ∧ ∀ a ∈ l, (10 : Int) ∉ a.text

instance (w : Window) : Decidable (WindowInv w) := by
  unfold WindowInv
  infer_instance

theorem lineLen_append (l1 l2 : List DisplayAtom) :
    lineLen (l1 ++ l2) = lineLen l1 + lineLen l2 := by
  simp [lineLen]

theorem lineLen_cons (a : DisplayAtom) (l : List DisplayAtom) :
    lineLen (a :: l) = a.colLen + lineLen l := by
  simp [lineLen]

theorem truncAtoms_len (l : List DisplayAtom) (t : Int) (ht : 0 ≤ t) :
    (lineLen (truncAtoms l t) : Int) = min t (lineLen l) := by
  induction l generalizing t with
  | nil =>
    rw [show truncAtoms [] t = [] from rfl]
    rw [show lineLen [] = 0 from rfl]
    omega
  | cons a as ih =>
    by_cases h0 : 0 < t
    · by_cases hle : (a.colLen : Int) ≤ t
      · rw [show truncAtoms (a :: as) t = a :: truncAtoms as (t - (a.colLen : Int))
          from by rw [truncAtoms]; rw [if_pos h0, if_pos hle]]
        have hrec := ih (t - (a.colLen : Int)) (by omega)
        rw [lineLen_cons, lineLen_cons]
        push_cast [hrec]
        omega
      · rw [show truncAtoms (a :: as) t = [{ a with text := a.text.take t.toNat }]
          from by rw [truncAtoms]; rw [if_pos h0, if_neg hle]]
        rw [lineLen_cons, lineLen_cons]
        rw [show lineLen ([] : List DisplayAtom) = 0 from rfl]
        simp only [DisplayAtom.colLen, List.length_take] at hle ⊢
        push_cast
        omega
    · rw [show truncAtoms (a :: as) t = [] from by rw [truncAtoms]; rw [if_neg h0]]
      rw [show lineLen [] = 0 from rfl, lineLen_cons]
      push_cast
      omega

theorem truncAtoms_clean (l : List DisplayAtom) (t : Int)
    (h : ∀ a ∈ l, (10 : Int) ∉ a.text) :
    ∀ a ∈ truncAtoms l t, (10 : Int) ∉ a.text := by
  induction l generalizing t with
  | nil => simp [truncAtoms]
  | cons a as ih =>
    intro a' ha'
    rw [truncAtoms] at ha'
    split at ha'
    · split at ha'
      · rcases List.mem_cons.mp ha' with rfl | hm
        · exact h a' (by simp)
        · exact ih _ (fun e he => h e (by simp [he])) a' hm
      · simp only [List.mem_singleton] at ha'
        subst ha'
        intro hmem
        exact h a (by simp) (List.take_subset _ _ hmem)
    · simp at ha'

theorem pushed_len (merge : Face → Face → Face) (df : Face)
    (atom : DisplayAtom) (h : atom.text ≠ []) :
    lineLen (pushedOf merge df atom) = atom.colLen := by
  unfold pushedOf
  have hlen : atom.text.length ≠ 0 := by simpa using h
  split
  · simp [lineLen, DisplayAtom.colLen, List.length_dropLast]
    omega
  · simp [lineLen, DisplayAtom.colLen]

theorem pushed_clean (merge : Face → Face → Face) (df : Face)
    (atom : DisplayAtom) (hne : atom.text ≠ [])
    (h : (10 : Int) ∉ atom.text.dropLast) :
    ∀ a ∈ pushedOf merge df atom, (10 : Int) ∉ a.text := by
  intro a ha
  simp only [pushedOf] at ha
  split at ha
  · rcases List.mem_cons.mp ha with rfl | ha'
    · exact h
    · simp only [List.mem_singleton] at ha'
      subst ha'
      simp
  · rename_i hlast
    simp only [List.mem_singleton] at ha
    subst ha
    intro hmem
    simp only at hmem
    rw [← List.dropLast_append_getLast hne] at hmem
    rcases List.mem_append.mp hmem with hm | hm
    · exact h hm
    · simp only [List.mem_singleton] at hm
      exact hlast (by rw [List.getLast?_eq_getLast _ hne, hm])

theorem drawFold_col (merge : Face → Face → Face) (df : Face) :
    ∀ (atoms : List DisplayAtom) (acc : List DisplayAtom) (c : Int),
    (atoms.foldl (drawStep merge df) (acc, c)).2 =
      c + ((atoms.map DisplayAtom.colLen).sum : Int) := by
  intro atoms
  induction atoms with
  | nil => intro acc c; simp
  | cons atom atoms ih =>
    intro acc c
    simp only [List.foldl_cons, drawStep]
    split
    · rename_i he
      rw [ih]
      have : atom.colLen = 0 := by simp [DisplayAtom.colLen, he]
      simp [this]
    · rw [ih]
      simp only [List.map_cons, List.sum_cons]
      push_cast
      ring

theorem drawFold_len (merge : Face → Face → Face) (df : Face) :
    ∀ (atoms : List DisplayAtom) (acc : List DisplayAtom) (c : Int),
    lineLen ((atoms.foldl (drawStep merge df) (acc, c)).1) =
      lineLen acc + (atoms.map DisplayAtom.colLen).sum := by
  intro atoms
  induction atoms with
  | nil => intro acc c; simp
  | cons atom atoms ih =>
    intro acc c
    simp only [List.foldl_cons, drawStep]
    split
    · rename_i he
      rw [ih]
      have : atom.colLen = 0 := by simp [DisplayAtom.colLen, he]
      simp [this]
    · rename_i he
      rw [ih, lineLen_append, pushed_len merge df atom he]
      simp only [List.map_cons, List.sum_cons]
      ring

theorem drawFold_clean (merge : Face → Face → Face) (df : Face) :
    ∀ (atoms : List DisplayAtom) (acc : List DisplayAtom) (c : Int),
    (∀ a ∈ acc, (10 : Int) ∉ a.text) →
    (∀ a ∈ atoms, (10 : Int) ∉ a.text.dropLast) →
    ∀ a ∈ (atoms.foldl (drawStep merge df) (acc, c)).1, (10 : Int) ∉ a.text := by
  intro atoms
  induction atoms with
  | nil => intro acc c hacc _; simpa using hacc
  | cons atom atoms ih =>
    intro acc c hacc hatoms
    simp only [List.foldl_cons, drawStep]
    split
    · exact ih acc c hacc (fun a ha => hatoms a (by simp [ha]))
    · rename_i he
      refine ih _ _ ?_ (fun a ha => hatoms a (by simp [ha]))
      intro a ha
      rcases List.mem_append.mp ha with hm | hm
      · exact hacc a hm
      · exact pushed_clean merge df atom he (hatoms atom (by simp)) a hm

theorem list_getD_set_self {α : Type} (L : List α) (i : Nat) (v d : α)
    (h : i < L.length) : (L.set i v).getD i d = v := by
  induction L generalizing i with
  | nil => simp at h
  | cons a as ih =>
    match i with
    | 0 => rfl
    | j + 1 => exact ih j (by simpa using h)

theorem list_getD_mem {α : Type} (L : List α) (i : Nat) (d : α)
    (h : i < L.length) : L.getD i d ∈ L := by
  induction L generalizing i with
  | nil => simp at h
  | cons a as ih =>
    match i with
    | 0 => simp [List.getD]
    | j + 1 =>
      have hm := ih j (by simpa using h)
      rw [show (a :: as).getD (j + 1) d = as.getD j d from rfl]
      exact List.mem_cons_of_mem _ hm

/-- Window.draw written out explicitly: the drawn line is the kept prefix of
the cleared line, the pushed atoms, and the padding when the final column
falls short of the width. -/
theorem draw_eq (w : Window) (merge : Face → Face → Face)
    (atoms : List DisplayAtom) (df : Face)
    (hi : w.cursor.1.toNat < w.lines.length) :
    w.draw merge atoms df =
      { w with
        lines := w.lines.set w.cursor.1.toNat
          (let kept := truncAtoms (w.lines.getD w.cursor.1.toNat []) w.cursor.2
           let folded := atoms.foldl (drawStep merge df) ([], w.cursor.2)
           if folded.2 < w.size.2 then
             (kept ++ folded.1) ++
               [⟨List.replicate (w.size.2 - folded.2).toNat 32, df⟩]
           else kept ++ folded.1),
        cursor := (w.cursor.1,
          (atoms.foldl (drawStep merge df) ([], w.cursor.2)).2) } := by
  unfold Window.draw Window.clear_line
  simp only [List.set_set, list_getD_set_self _ _ _ _ hi]

/-- C5 (amended): Window::draw preserves the two stored invariants — every
non-empty line spans exactly the window width and no stored atom contains a
newline — and the drawn line has column length exactly the window width,
provided the window width is positive, the cursor addresses an existing line
at a column covered by that line, the atoms fit in the window width from the
cursor column, and each atom contains a newline at most as its final
character. -/
theorem c5_draw_line_width (merge : Face → Face → Face) (w : Window)
    (atoms : List DisplayAtom) (df : Face)
    (hinv : WindowInv w) (hw : 0 < w.size.2)
    (hi : w.cursor.1.toNat < w.lines.length)
    (hc0 : 0 ≤ w.cursor.2)
    (hcle : w.cursor.2 ≤ (lineLen (w.lines.getD w.cursor.1.toNat []) : Int))
    (hfit : w.cursor.2 + ((atoms.map DisplayAtom.colLen).sum : Int) ≤ w.size.2)
    (hnl : ∀ a ∈ atoms, (10 : Int) ∉ a.text.dropLast) :
    WindowInv (w.draw merge atoms df) ∧
    (lineLen ((w.draw merge atoms df).lines.getD w.cursor.1.toNat []) : Int) =
      w.size.2 := by
  rw [draw_eq w merge atoms df hi]
  simp only []
  set i := w.cursor.1.toNat with hidef
  set kept := truncAtoms (w.lines.getD i []) w.cursor.2 with hkdef
  set folded := atoms.foldl (drawStep merge df) ([], w.cursor.2) with hfdef
  set S := (atoms.map DisplayAtom.colLen).sum with hSdef
  set pad : DisplayAtom := ⟨List.replicate (w.size.2 - folded.2).toNat 32, df⟩
    with hpdef
  have hcol : folded.2 = w.cursor.2 + (S : Int) := drawFold_col merge df atoms [] _
  have hflen : lineLen folded.1 = S := by
    have h := drawFold_len merge df atoms [] w.cursor.2
    rw [← hfdef, ← hSdef] at h
    simpa [lineLen] using h
  have hkeptlen : (lineLen kept : Int) = w.cursor.2 := by
    rw [hkdef, truncAtoms_len _ _ hc0]
    omega
  have horig_clean := (hinv _ (list_getD_mem w.lines i [] hi)).2
  have hkclean : ∀ a ∈ kept, (10 : Int) ∉ a.text :=
    truncAtoms_clean _ w.cursor.2 horig_clean
  have hfclean : ∀ a ∈ folded.1, (10 : Int) ∉ a.text :=
    drawFold_clean merge df atoms [] w.cursor.2 (by simp) hnl
  have hpadlen : lineLen [pad] = (w.size.2 - folded.2).toNat := by
    simp [hpdef, lineLen, DisplayAtom.colLen]
  have hlenfinal :
      (lineLen (if folded.2 < w.size.2 then (kept ++ folded.1) ++ [pad]
        else kept ++ folded.1) : Int) = w.size.2 := by
    split
    · rename_i hlt
      rw [lineLen_append, lineLen_append, hpadlen, hflen]
      rw [hcol] at hlt ⊢
      rw [Nat.cast_add, Nat.cast_add, hkeptlen]
      omega
    · rename_i hge
      rw [lineLen_append, hflen, Nat.cast_add, hkeptlen]
      rw [hcol] at hge
      omega
  have hcleanfinal : ∀ a ∈ (if folded.2 < w.size.2 then (kept ++ folded.1) ++ [pad]
      else kept ++ folded.1), (10 : Int) ∉ a.text := by
    intro a ha
    have hmem : a ∈ kept ++ folded.1 ∨ a ∈ [pad] := by
      split at ha
      · rcases List.mem_append.mp ha with hm | hm
        · exact Or.inl hm
        · exact Or.inr hm
      · exact Or.inl ha
    rcases hmem with hm | hm
    · rcases List.mem_append.mp hm with hm' | hm'
      · exact hkclean a hm'
      · exact hfclean a hm'
    · simp only [List.mem_singleton] at hm
      subst hm
      intro hx
      rw [hpdef] at hx
      have := List.eq_of_mem_replicate hx
      omega
  constructor
  · intro l hl
    simp only [WindowInv] at hl ⊢
    rcases List.mem_or_eq_of_mem_set hl with hmem | rfl
    · exact hinv l hmem
    · exact ⟨Or.inr hlenfinal, hcleanfinal⟩
  · rw [list_getD_set_self _ _ _ _ hi]
    exact hlenfinal

/-- The window and atoms of the C5 counterexample: a 1 x 2 window, cursor at
the origin, drawn with a single atom whose text is a, newline, b — three
columns with an interior newline. -/
def cex5Drawn : Window :=
  Window.draw ⟨(0, 0), (1, 2), (0, 0), [[]]⟩ (fun _ o => o)
    [⟨[97, 10, 98], ⟨0, 0, 0⟩⟩] ⟨0, 0, 0⟩

/-- C5 counterexample: after that draw the (non-empty) drawn line has column
length 3, not the window width 2, and a stored atom carries an embedded
newline, refuting both parts of the claim as universally stated. -/
theorem c5_counterexample :
    (lineLen (cex5Drawn.lines.getD 0 []) : Int) ≠ cex5Drawn.size.2 ∧
    cex5Drawn.lines.getD 0 [] ≠ [] ∧
    ∃ l ∈ cex5Drawn.lines, ∃ a ∈ l, (10 : Int) ∈ a.text := by
  refine ⟨by decide, by decide, ?_⟩
  refine ⟨cex5Drawn.lines.getD 0 [], by decide, ⟨[97, 10, 98], ⟨0, 0, 0⟩⟩, by decide, by decide⟩

/-- C5 witness: a 1 x 3 window drawn from column 0 with one newline-ending
atom of two columns satisfies every hypothesis of the amended claim. -/
theorem c5_witness :
    WindowInv (⟨(0, 0), (1, 3), (0, 0), [[]]⟩ : Window) ∧
    WindowInv (Window.draw ⟨(0, 0), (1, 3), (0, 0), [[]]⟩ (fun _ o => o)
      [⟨[97, 10], ⟨0, 0, 0⟩⟩] ⟨0, 0, 0⟩) ∧
    (lineLen ((Window.draw ⟨(0, 0), (1, 3), (0, 0), [[]]⟩ (fun _ o => o)
      [⟨[97, 10], ⟨0, 0, 0⟩⟩] ⟨0, 0, 0⟩).lines.getD 0 []) : Int) = 3 := by
  have h := c5_draw_line_width (fun _ o => o) ⟨(0, 0), (1, 3), (0, 0), [[]]⟩
    [⟨[97, 10], ⟨0, 0, 0⟩⟩] ⟨0, 0, 0⟩ (by decide) (by decide) (by decide)
    (by decide) (by decide) (by decide) (by decide)
  exact ⟨by decide, h.1, h.2⟩

/-! The layout engine: compute_pos. -/

/-- A rectangle: position and size (an all-zero size means absent). -/
structure Rect where
  pos : Int × Int
  size : Int × Int
deriving DecidableEq, Repr

/-- The placement steps 1-3 of compute_pos: above the anchor when preferred
and possible, else below with a bottom-overflow pull-up, then the horizontal
clamp against the bounding rect. -/
def placeBox (anchor size : Int × Int) (rect : Rect) (preferAbove : Bool) :
    Int × Int :=
  let rectEnd := (rect.pos.1 + rect.size.1, rect.pos.2 + rect.size.2)
  let above := preferAbove && !decide (anchor.1 - size.1 < 0)
  let pos :=
    if above then (anchor.1 - size.1, anchor.2)
    else
      let p := (anchor.1 + 1, anchor.2)
      if p.1 + size.1 > rectEnd.1 then
        (max rect.pos.1 (anchor.1 - size.1), anchor.2)
      else p
  if pos.2 + size.2 > rectEnd.2 then
    (pos.1, max rect.pos.2 (rectEnd.2 - size.2))
  else pos

/-- The inclusive-bounds overlap test of compute_pos: the box [pos, pos+size]
and the rectangle [r.pos, r.pos + r.size] intersect, comparing both ends with
non-strict bounds on both axes (so touching edges count as overlap). -/
def overlapsIncl (pos size : Int × Int) (r : Rect) : Prop :=
  let e := (pos.1 + size.1, pos.2 + size.2)
  let re := (r.pos.1 + r.size.1, r.pos.2 + r.size.2)
  r.pos.1 ≤ e.1 ∧ r.pos.2 ≤ e.2 ∧ pos.1 ≤ re.1 ∧ pos.2 ≤ re.2

instance (pos size : Int × Int) (r : Rect) : Decidable (overlapsIncl pos size r) := by
  unfold overlapsIncl
  infer_instance

/-- compute_pos: place the box (steps 1-3), then, when to_avoid is non-empty
and the placed box intersects it, push it to
min(to_avoid.top, anchor.line) - size.line, or, when that is negative, to
max(to_avoid.bottom, anchor.line). -/
def compute_pos (anchor size : Int × Int) (rect toAvoid : Rect)
    (preferAbove : Bool) : Int × Int :=
  let pos := placeBox anchor size rect preferAbove
  if toAvoid.size ≠ (0, 0) then
    let toAvoidEnd := (toAvoid.pos.1 + toAvoid.size.1, toAvoid.pos.2 + toAvoid.size.2)
    let posEnd := (pos.1 + size.1, pos.2 + size.2)
    if ¬(posEnd.1 < toAvoid.pos.1 ∨ posEnd.2 < toAvoid.pos.2 ∨
         pos.1 > toAvoidEnd.1 ∨ pos.2 > toAvoidEnd.2) then
      let l := min toAvoid.pos.1 anchor.1 - size.1
      if l < 0 then (max toAvoidEnd.1 anchor.1, pos.2)
      else (l, pos.2)
    else pos
  else pos

/-- C6: whenever to_avoid is non-empty and the box placed by steps 1-3
intersects it under the inclusive-bounds test, compute_pos sets the result
line to min(to_avoid.top, anchor.line) - size.line, falling back to
max(to_avoid.bottom, anchor.line) when that is negative; the column is the
placed column either way. -/
theorem c6_compute_pos_avoid (anchor size : Int × Int) (rect toAvoid : Rect)
    (preferAbove : Bool) (hne : toAvoid.size ≠ (0, 0))
    (hover : overlapsIncl (placeBox anchor size rect preferAbove) size toAvoid) :
    (compute_pos anchor size rect toAvoid preferAbove).1 =
      (if min toAvoid.pos.1 anchor.1 - size.1 < 0 then
         max (toAvoid.pos.1 + toAvoid.size.1) anchor.1
       else min toAvoid.pos.1 anchor.1 - size.1) ∧
    (compute_pos anchor size rect toAvoid preferAbove).2 =
      (placeBox anchor size rect preferAbove).2 := by
  unfold compute_pos
  simp only [overlapsIncl] at hover
  rw [if_pos hne]
  rw [if_pos (by omega)]
  by_cases hl : min toAvoid.pos.1 anchor.1 - size.1 < 0
  · rw [if_pos hl, if_pos hl]
    exact ⟨rfl, rfl⟩
  · rw [if_neg hl, if_neg hl]
    exact ⟨rfl, rfl⟩

/-- C6 witness: a box below the anchor that lands on the rectangle to avoid
and is pushed above it. -/
theorem c6_witness :
    ((⟨(6, 0), (3, 20)⟩ : Rect).size ≠ (0, 0)) ∧
    overlapsIncl (placeBox (5, 5) (2, 3) ⟨(0, 0), (20, 20)⟩ false) (2, 3)
      ⟨(6, 0), (3, 20)⟩ ∧
    (compute_pos (5, 5) (2, 3) ⟨(0, 0), (20, 20)⟩ ⟨(6, 0), (3, 20)⟩ false).1 = 3 := by
  have h := c6_compute_pos_avoid (5, 5) (2, 3) ⟨(0, 0), (20, 20)⟩
    ⟨(6, 0), (3, 20)⟩ false (by decide) (by decide)
  exact ⟨by decide, by decide, by rw [h.1]; decide⟩

/-! The menu engine: menu_show sizing, menu_select scrolling and the
draw_menu grid-mode scrollbar mark. Items are represented by their column
widths. All arithmetic is C-style: Int with truncating division (Int.div). -/

/-- div_round_up from the source: (a - 1) / b + 1 with truncating division. -/
def div_round_up (a b : Int) : Int := Int.div (a - 1) b + 1

inductive MenuStyle where
  | inlineStyle | promptStyle | searchStyle
deriving DecidableEq, Repr

/-- height_limit: Inline and Prompt cap at 10 lines, Search at 3. -/
def height_limit : MenuStyle → Int
  | .inlineStyle => 10
  | .promptStyle => 10
  | .searchStyle => 3

/-- The menu state: trimmed item widths, column count (0 = horizontal),
window position and size, scroll position and selection. -/
structure Menu where
  items : List Int
  columns : Int
  pos : Int × Int
  size : Int × Int
  firstItem : Int
  selectedItem : Int
deriving DecidableEq, Repr

/-- menu_show: refuse when the screen is 2 columns or narrower; otherwise
compute columns (0 for Search, 1 for Inline, max_width / (longest + 1)
clamped to 1 for Prompt), the height (capped by the style limit and by the
room above or below the anchor), trim every item to its cell width, and
place the window; first_item is 0 and selected_item the item count
sentinel. -/
def menu_show (itemWidths : List Int) (anchor dims : Int × Int)
    (style : MenuStyle) (statusOnTop : Bool) : Option Menu :=
  if dims.2 ≤ 2 then none
  else
    let item_count : Int := itemWidths.length
    let longest := itemWidths.foldl max 1
    let max_width := dims.2 - 1
    let is_inline := style = MenuStyle.inlineStyle
    let is_search := style = MenuStyle.searchStyle
    let columns : Int :=
      if is_search then 0
      else if is_inline then 1
      else max (Int.div max_width (longest + 1)) 1
    let max_height := min (height_limit style)
      (max anchor.1 (dims.1 - anchor.1 - 1))
    let height := if is_search then 1
      else min max_height (div_round_up item_count columns)
    let maxlen := if columns > 1 ∧ item_count > 1 then
        Int.div max_width columns - 1
      else max_width
    let items := itemWidths.map (fun w => min w maxlen)
    let anchorLine := if is_inline then
        anchor.1 + (if statusOnTop then 1 else 0)
      else anchor.1
    let line :=
      if is_search then (if statusOnTop then 0 else dims.1)
      else if ¬is_inline then (if statusOnTop then 1 else dims.1 - height)
      else if anchorLine + 1 + height > dims.1 then anchorLine - height
      else anchorLine + 1
    let column :=
      if is_search then Int.div dims.2 2
      else max 0 (min anchor.2 (dims.2 - longest - 1))
    let width :=
      if is_search then dims.2 - Int.div dims.2 2
      else if is_inline then min (longest + 1) dims.2
      else dims.2
    some { items := items, columns := columns, pos := (line, column),
           size := (height, width), firstItem := 0, selectedItem := item_count }

/-- menu_select: out-of-range deselects and resets the scroll; horizontal
menus repack the visible run of items so first_item..selected fits; grid
menus scroll whole columns so the selected column is visible. -/
def menu_select (m : Menu) (selected : Int) : Menu :=
  let item_count : Int := m.items.length
  if selected < 0 ∨ selected ≥ item_count then
    { m with selectedItem := -1, firstItem := 0 }
  else if m.columns = 0 then
    let width := m.size.2 - 3
    let step := fun (acc : Int × Int) (i : Nat) =>
      let item_width := m.items.getD i 0 + 1
      if acc.2 + item_width > width then ((i : Int), item_width)
      else (acc.1, acc.2 + item_width)
    let first := ((List.range (selected.toNat + 1)).foldl step (0, 0)).1
    { m with selectedItem := selected, firstItem := first }
  else
    let menu_cols := div_round_up item_count m.size.1
    let first_col := Int.div m.firstItem m.size.1
    let selected_col := Int.div selected m.size.1
    let f1 := if selected_col < first_col then selected_col * m.size.1
      else m.firstItem
    let f2 := if selected_col ≥ first_col + m.columns then
        (min selected_col (menu_cols - m.columns)) * m.size.1
      else f1
    { m with selectedItem := selected, firstItem := f2 }

/-- The scrollbar mark computed by draw_menu in grid mode:
mark height = min(div_round_up(height^2, menu_lines), height) and
mark top = (height - mark_height) * first_col / max(1, menu_cols - columns).
Returns (mark_line, mark_height). -/
def menu_mark (m : Menu) : Int × Int :=
  let item_count : Int := m.items.length
  let menu_lines := div_round_up item_count m.columns
  let win_height := m.size.1
  let mark_height := min (div_round_up (win_height * win_height) menu_lines)
    win_height
  let menu_cols := div_round_up item_count win_height
  let first_col := Int.div m.firstItem win_height
  let mark_line := Int.div ((win_height - mark_height) * first_col)
    (max 1 (menu_cols - m.columns))
  (mark_line, mark_height)

/-- Menu states reachable through menu_show (in a grid style) followed by
any sequence of menu_select calls. -/
inductive MenuReach : Menu → Prop where
  | showStep : ∀ (itemWidths : List Int) (anchor dims : Int × Int)
      (style : MenuStyle) (sot : Bool) (m : Menu),
      style ≠ MenuStyle.searchStyle →
      menu_show itemWidths anchor dims style sot = some m → MenuReach m
  | selectStep : ∀ (m : Menu) (i : Int), MenuReach m → MenuReach (menu_select m i)

/-! Truncating integer division on non-negative operands agrees with Nat
division; the handful of facts the scrollbar bounds need. -/

theorem int_div_nonneg_eq (a b : Int) (ha : 0 ≤ a) (hb : 0 ≤ b) :
    Int.div a b = ((a.toNat / b.toNat : Nat) : Int) := by
  obtain ⟨x, rfl⟩ := Int.eq_ofNat_of_zero_le ha
  obtain ⟨y, rfl⟩ := Int.eq_ofNat_of_zero_le hb
  rfl

theorem int_div_nonneg (a b : Int) (ha : 0 ≤ a) (hb : 0 ≤ b) :
    0 ≤ Int.div a b := by
  rw [int_div_nonneg_eq a b ha hb]
  exact Int.natCast_nonneg _

theorem int_div_le_int_div (a b c : Int) (ha : 0 ≤ a) (hab : a ≤ b)
    (hc : 1 ≤ c) : Int.div a c ≤ Int.div b c := by
  obtain ⟨x, rfl⟩ := Int.eq_ofNat_of_zero_le ha
  obtain ⟨y, rfl⟩ := Int.eq_ofNat_of_zero_le (le_trans ha hab)
  obtain ⟨z, rfl⟩ := Int.eq_ofNat_of_zero_le (by omega : (0 : Int) ≤ c)
  rw [int_div_nonneg_eq _ _ (by positivity) (by positivity),
      int_div_nonneg_eq _ _ (by positivity) (by positivity)]
  have hxy : x ≤ y := by exact_mod_cast hab
  simp only [Int.toNat_ofNat]
  exact_mod_cast Nat.div_le_div_right hxy

theorem int_mul_div_cancel_nonneg (x h : Int) (hx : 0 ≤ x) (hh : 1 ≤ h) :
    Int.div (x * h) h = x := by
  obtain ⟨a, rfl⟩ := Int.eq_ofNat_of_zero_le hx
  obtain ⟨b, rfl⟩ := Int.eq_ofNat_of_zero_le (by omega : (0 : Int) ≤ h)
  rw [show ((a : Int) * b) = ((a * b : Nat) : Int) from by push_cast; ring]
  rw [int_div_nonneg_eq _ _ (by positivity) (by positivity)]
  simp only [Int.toNat_ofNat]
  rw [Nat.mul_div_cancel _ (by exact_mod_cast hh : 0 < b)]

theorem int_mul_div_le (a b M : Int) (ha : 0 ≤ a) (hb : 0 ≤ b) (hbM : b ≤ M)
    (hM : 1 ≤ M) : Int.div (a * b) M ≤ a := by
  calc Int.div (a * b) M ≤ Int.div (a * M) M :=
        int_div_le_int_div _ _ _ (by positivity)
          (mul_le_mul_of_nonneg_left hbM ha) hM
    _ = a := int_mul_div_cancel_nonneg a M ha hM

theorem div_round_up_pos (a b : Int) (ha : 1 ≤ a) (hb : 1 ≤ b) :
    1 ≤ div_round_up a b := by
  unfold div_round_up
  have := int_div_nonneg (a - 1) b (by omega) (by omega)
  omega

/-- The scroll invariant of grid menus: at least one column, and (when the
menu has items and a positive height) first_item is a whole number of
columns, with the first column no further right than
max 0 (menu_cols - columns). -/
def MenuInv (m : Menu) : Prop :=
  1 ≤ m.columns ∧
  (m.items ≠ [] → 1 ≤ m.size.1 →
    ∃ fc : Int, 0 ≤ fc ∧ m.firstItem = fc * m.size.1 ∧
      fc ≤ max 0 (div_round_up (m.items.length : Int) m.size.1 - m.columns))

theorem menuInv_show (itemWidths : List Int) (anchor dims : Int × Int)
    (style : MenuStyle) (sot : Bool) (m : Menu)
    (hstyle : style ≠ MenuStyle.searchStyle)
    (h : menu_show itemWidths anchor dims style sot = some m) : MenuInv m := by
  unfold menu_show at h
  split at h
  · exact absurd h (by simp)
  · simp only [Option.some.injEq] at h
    subst h
    refine ⟨?_, ?_⟩
    · dsimp only
      split
      · rename_i hs
        exact absurd hs hstyle
      · split
        · norm_num
        · exact le_max_right _ 1
    · intro hne hh
      dsimp only at hne hh ⊢
      exact ⟨0, le_refl 0, (zero_mul _).symm, le_max_left 0 _⟩

theorem menu_select_fields (m : Menu) (i : Int) :
    (menu_select m i).columns = m.columns ∧
    (menu_select m i).items = m.items ∧
    (menu_select m i).size = m.size := by
  unfold menu_select
  by_cases h1 : i < 0 ∨ i ≥ (m.items.length : Int)
  · rw [if_pos h1]
    exact ⟨rfl, rfl, rfl⟩
  · rw [if_neg h1]
    by_cases h2 : m.columns = 0
    · rw [if_pos h2]
      exact ⟨rfl, rfl, rfl⟩
    · rw [if_neg h2]
      exact ⟨rfl, rfl, rfl⟩

theorem menu_select_out_firstItem (m : Menu) (i : Int)
    (hrange : i < 0 ∨ i ≥ (m.items.length : Int)) :
    (menu_select m i).firstItem = 0 := by
  unfold menu_select
  rw [if_pos hrange]

theorem menu_select_grid_firstItem (m : Menu) (i : Int)
    (hrange : ¬(i < 0 ∨ i ≥ (m.items.length : Int))) (hcol : ¬m.columns = 0) :
    (menu_select m i).firstItem =
      (if Int.div i m.size.1 ≥ Int.div m.firstItem m.size.1 + m.columns then
        min (Int.div i m.size.1)
          (div_round_up (m.items.length : Int) m.size.1 - m.columns) * m.size.1
      else if Int.div i m.size.1 < Int.div m.firstItem m.size.1 then
        Int.div i m.size.1 * m.size.1
      else m.firstItem) := by
  unfold menu_select
  rw [if_neg hrange, if_neg hcol]

theorem menuInv_select (m : Menu) (i : Int) (hinv : MenuInv m) :
    MenuInv (menu_select m i) := by
  obtain ⟨hc, hex⟩ := hinv
  obtain ⟨hcols, hitems, hsize⟩ := menu_select_fields m i
  refine ⟨by rw [hcols]; exact hc, ?_⟩
  intro hne hh
  rw [hitems] at hne
  rw [hsize] at hh
  rw [hcols, hitems, hsize]
  by_cases hrange : i < 0 ∨ i ≥ (m.items.length : Int)
  · rw [menu_select_out_firstItem m i hrange]
    exact ⟨0, le_refl 0, (zero_mul _).symm, le_max_left 0 _⟩
  · rw [menu_select_grid_firstItem m i hrange (by omega)]
    obtain ⟨fc, hfc0, hfi, hfle⟩ := hex hne hh
    have hi0 : 0 ≤ i := by omega
    have hin : i ≤ (m.items.length : Int) - 1 := by omega
    have hfcol : Int.div m.firstItem m.size.1 = fc := by
      rw [hfi]
      exact int_mul_div_cancel_nonneg fc _ hfc0 hh
    rw [hfcol]
    have hsc0 : 0 ≤ Int.div i m.size.1 := int_div_nonneg i _ hi0 (by omega)
    have hscK : Int.div i m.size.1 ≤
        div_round_up (m.items.length : Int) m.size.1 - 1 := by
      unfold div_round_up
      have := int_div_le_int_div i ((m.items.length : Int) - 1) m.size.1 hi0 hin hh
      omega
    by_cases h2 : Int.div i m.size.1 ≥ fc + m.columns
    · rw [if_pos h2]
      refine ⟨min (Int.div i m.size.1)
        (div_round_up (m.items.length : Int) m.size.1 - m.columns), ?_, rfl, ?_⟩
      · omega
      · omega
    · rw [if_neg h2]
      by_cases h3 : Int.div i m.size.1 < fc
      · rw [if_pos h3]
        exact ⟨Int.div i m.size.1, hsc0, rfl, by omega⟩
      · rw [if_neg h3]
        exact ⟨fc, hfc0, hfi, hfle⟩

theorem menuInv_reach (m : Menu) (h : MenuReach m) : MenuInv m := by
  induction h with
  | showStep iw anchor dims style sot m hs hshow =>
    exact menuInv_show iw anchor dims style sot m hs hshow
  | selectStep m i hm ih => exact menuInv_select m i ih

/-- C7 (amended): for every menu state reached through menu_show in a grid
style and any sequence of menu_select calls, with at least one item and a
menu window height of at least one line, the draw_menu scrollbar mark
satisfies mark_line at least 0, mark_line + mark_height at most the window
height, and mark_height at least 1. (A height-0 menu window is reachable
when neither above nor below the anchor has room, and there mark_height is
0: see the counterexample.) -/
theorem c7_scrollbar_bounds (m : Menu) (hr : MenuReach m)
    (hh : 1 ≤ m.size.1) (hne : m.items ≠ []) :
    0 ≤ (menu_mark m).1 ∧ (menu_mark m).1 + (menu_mark m).2 ≤ m.size.1 ∧
    1 ≤ (menu_mark m).2 := by
  obtain ⟨hc, hex⟩ := menuInv_reach m hr
  obtain ⟨fc, hfc0, hfi, hfle⟩ := hex hne hh
  have hn : 1 ≤ (m.items.length : Int) := by
    have : m.items.length ≠ 0 := by simpa using hne
    omega
  unfold menu_mark
  simp only []
  have hfcol : Int.div m.firstItem m.size.1 = fc := by
    rw [hfi]
    exact int_mul_div_cancel_nonneg fc _ hfc0 hh
  rw [hfcol]
  set L := div_round_up (m.items.length : Int) m.columns with hLdef
  set K := div_round_up (m.items.length : Int) m.size.1 with hKdef
  set mh := min (div_round_up (m.size.1 * m.size.1) L) m.size.1 with hmhdef
  set M := max 1 (K - m.columns) with hMdef
  have hL1 : 1 ≤ L := div_round_up_pos _ _ hn hc
  have hmh1 : 1 ≤ mh := by
    have := div_round_up_pos (m.size.1 * m.size.1) L (by nlinarith) hL1
    omega
  have hmh2 : mh ≤ m.size.1 := min_le_right _ _
  have hM1 : 1 ≤ M := le_max_left 1 _
  have hfcM : fc ≤ M := by omega
  have hml0 : 0 ≤ Int.div ((m.size.1 - mh) * fc) M :=
    int_div_nonneg _ _ (mul_nonneg (by omega) hfc0) (by omega)
  have hmlle : Int.div ((m.size.1 - mh) * fc) M ≤ m.size.1 - mh :=
    int_mul_div_le _ _ _ (by omega) hfc0 hfcM hM1
  exact ⟨hml0, by omega, hmh1⟩

/-- The menu state produced by the C7 counterexample call: one item of width
one, anchored at the origin of a screen with a single content row — there is
no room above or below the anchor, so the grid menu window has height 0. -/
def cex7Menu : Menu := ⟨[1], 39, (1, 0), (0, 80), 0, 1⟩

/-- C7 counterexample: a reachable grid-mode menu state with one item whose
scrollbar mark height is 0, refuting mark_height at least 1 as universally
stated: menu_show of one item at anchor (0,0) on a 1-row-by-80-column
content area creates a height-0 prompt menu, and draw_menu computes
mark_height = min(div_round_up(0, 1), 0) = 0. -/
theorem c7_counterexample :
    menu_show [1] (0, 0) (1, 80) MenuStyle.promptStyle false = some cex7Menu ∧
    MenuReach cex7Menu ∧ 1 ≤ cex7Menu.columns ∧ cex7Menu.items ≠ [] ∧
    (menu_mark cex7Menu).2 = 0 := by
  refine ⟨by decide, ?_, by decide, by decide, by decide⟩
  exact MenuReach.showStep [1] (0, 0) (1, 80) MenuStyle.promptStyle false cex7Menu
    (by decide) (by decide)

/-- The menu state of the C7 witness: one item on a 24-row screen, where the
prompt menu gets height 1. -/
def wit7Menu : Menu := ⟨[1], 39, (23, 0), (1, 80), 0, 1⟩

/-- C7 witness: the amended bounds at a concrete reachable menu state of
height 1 (after one menu_select call). -/
theorem c7_witness :
    menu_show [1] (5, 0) (24, 80) MenuStyle.promptStyle false = some wit7Menu ∧
    1 ≤ (menu_select wit7Menu 0).size.1 ∧ (menu_select wit7Menu 0).items ≠ [] ∧
    (0 ≤ (menu_mark (menu_select wit7Menu 0)).1 ∧
     (menu_mark (menu_select wit7Menu 0)).1 +
       (menu_mark (menu_select wit7Menu 0)).2 ≤ (menu_select wit7Menu 0).size.1 ∧
     1 ≤ (menu_mark (menu_select wit7Menu 0)).2) := by
  have hreach : MenuReach (menu_select wit7Menu 0) :=
    MenuReach.selectStep wit7Menu 0
      (MenuReach.showStep [1] (5, 0) (24, 80) MenuStyle.promptStyle false wit7Menu
        (by decide) (by decide))
  exact ⟨by decide, by decide, by decide,
    c7_scrollbar_bounds (menu_select wit7Menu 0) hreach (by decide) (by decide)⟩

end Kakoune
